import Mathlib

/-
Verification development for the invoice ("Rechnung") dashboard repository.

The repository is a React single-page app over a hosted-records REST service.
This file gives a shallow embedding of the parts of the code the claims are
about:

* `extractRecordId` and `getRechnung` from `src/services/livingAppsService.ts`;
* the `useDashboardData` hook (`fetchAll`) from the data-hook module;
* the KPI aggregations (`stats`), the category chart pipeline (`getKategorie`,
  `chartData`) from `src/pages/DashboardOverview.tsx`;
* the mutation handlers (`handleDelete`, `handleCreate`, `handleUpdate`) of the
  table page and the dashboard page, abstracted as effect traces plus the local
  collection update they perform.

Modelling conventions: JavaScript numbers are modelled as rationals (exact
arithmetic), strings as Lean `String`, absent/undefined/null fields as
`Option`, and the asynchronous `fetchAll` as explicit state passing (the state
observed when the request is issued, and the state after the promise settles).
-/

namespace InvoiceDashboard

/-- The category field value as the code tolerates it at runtime: either a bare
string or a label/key pair object (the `typeof k === 'object' && 'key' in k`
branch of `getKategorie`). -/
inductive KategorieValue where
  | str (s : String)
  | pair (key label : String)
deriving DecidableEq

/-- The optional field set of a `Rechnung` record, from the generated
`Rechnung['fields']` type: every field is independently optional. -/
structure RechnungFields where
  rechnungsnummer : Option String := none
  rechnungsdatum : Option String := none
  betrag : Option ℚ := none
  lieferant : Option String := none
  kategorie : Option KategorieValue := none
  rechnungsdatei : Option String := none
  bezahlt : Option Bool := none
  zahlungsdatum : Option String := none
  notizen : Option String := none
deriving DecidableEq

/-- One invoice record, from the generated `Rechnung` interface:
identifier, timestamps, and the optional field set. -/
structure Rechnung where
  record_id : String
  createdat : String
  updatedat : Option String
  fields : RechnungFields
deriving DecidableEq

/-! ### Record Client (`src/services/livingAppsService.ts`) -/

/-- One character of the character class `[a-f0-9]` under the regex's
case-insensitive `i` flag, as used by `extractRecordId`. -/
def isHexChar (c : Char) : Bool :=
  ('0' ≤ c && c ≤ '9') || ('a' ≤ c && c ≤ 'f') || ('A' ≤ c && c ≤ 'F')

/-- Regex search for `/([a-f0-9]{24})$/i`: the engine tries each start
position from the left; at position `i` the pattern matches exactly when the
suffix starting there is 24 characters long, all hexadecimal (the `$` anchor
forces the suffix to be the whole rest of the string). -/
def hexTailMatch : List Char → Option (List Char)
  | [] => none
  | c :: cs =>
    if (c :: cs).length = 24 ∧ (c :: cs).all isHexChar = true then some (c :: cs)
    else hexTailMatch cs

/-- `extractRecordId` from `livingAppsService.ts`. The input is
`string | null | undefined`; `null` and `undefined` are both modelled as
`none`. The JavaScript guard `if (!url) return null` is falsy also for the
empty string, then the regex `/([a-f0-9]{24})$/i` is matched and capture
group 1 (the whole match) is returned. -/
def extractRecordId (url : Option String) : Option String :=
  match url with
  | none => none
  | some s => if s = "" then none else (hexTailMatch s.data).map String.mk

/-- The body the hosted-records service stores per identifier: the entry
value in the id-to-record mapping returned by `GET .../records`. -/
structure ApiRecordBody where
  createdat : String
  updatedat : Option String
  fields : RechnungFields
deriving DecidableEq

/-- `LivingAppsService.getRechnung`: flattens the service's mapping
(`Object.entries(data)`, modelled as the association list in the mapping's
native enumeration order) into a record sequence, tagging each entry with its
identifier as `record_id` via the spread `{ record_id: id, ...rec }`. -/
def getRechnung (data : List (String × ApiRecordBody)) : List Rechnung :=
  data.map (fun p =>
    { record_id := p.1, createdat := p.2.createdat, updatedat := p.2.updatedat,
      fields := p.2.fields })

/-! ### Data Hook (`useDashboardData`) -/

/-- The state owned by `useDashboardData`: the record collection, the loading
flag and the error slot. Errors are modelled by their message string. -/
structure HookState where
  rechnung : List Rechnung
  loading : Bool
  error : Option String
deriving DecidableEq

/-- The hook's initial state: `useState<Rechnung[]>([])`,
`useState(true)` for loading, `useState<Error|null>(null)` for error. -/
def initialHookState : HookState :=
  { rechnung := [], loading := true, error := none }

/-- The hook state at the moment `fetchAll` issues the `list()` request:
`setError(null)` has run and nothing else has changed. In particular the
code contains no `setLoading(true)` in `fetchAll`. -/
def fetchAllPre (s : HookState) : HookState := { s with error := none }

/-- The state update applied when the `list()` promise settles, starting from
the state at request time: on success `setRechnung(data)`, on failure
`setError(err)`, and in the `finally` block `setLoading(false)`. -/
def fetchAllResolve (s : HookState) (res : Except String (List Rechnung)) :
    HookState :=
  match res with
  | Except.ok data => { s with rechnung := data, loading := false }
  | Except.error e => { s with error := some e, loading := false }

/-- One complete run of `fetchAll` from state `s` with network outcome `res`:
first the synchronous prefix (`setError(null)`), then the resolution. -/
def fetchAll (s : HookState) (res : Except String (List Rechnung)) : HookState :=
  fetchAllResolve (fetchAllPre s) res

/-! ### Aggregation functions (`DashboardOverview.tsx`, `stats` memo) -/

/-- JavaScript truthiness of the optional `bezahlt` flag as used by the
filters `r.fields.bezahlt` / `!r.fields.bezahlt`: only the present value
`true` is truthy; absent and `false` are falsy. -/
def isBezahlt (r : Rechnung) : Bool :=
  match r.fields.bezahlt with
  | some true => true
  | _ => false

/-- `r.fields.betrag ?? 0`: the amount of a record, absent amount counting
as zero. -/
def betragOrZero (r : Rechnung) : ℚ :=
  r.fields.betrag.getD 0

/-- `total` of the `stats` memo: sum of `betrag ?? 0` over the collection. -/
def totalAmount (l : List Rechnung) : ℚ :=
  (l.map betragOrZero).sum

/-- `bezahlt` of the `stats` memo: the records whose paid flag is truthy. -/
def bezahltList (l : List Rechnung) : List Rechnung :=
  l.filter isBezahlt

/-- `offen` of the `stats` memo: the records whose paid flag is not truthy. -/
def offenList (l : List Rechnung) : List Rechnung :=
  l.filter (fun r => !isBezahlt r)

/-- `bezahltSum` of the `stats` memo. -/
def bezahltSum (l : List Rechnung) : ℚ :=
  totalAmount (bezahltList l)

/-- `offenSum` of the `stats` memo. -/
def offenSum (l : List Rechnung) : ℚ :=
  totalAmount (offenList l)

/-- `bezahltCount` of the `stats` memo. -/
def bezahltCount (l : List Rechnung) : Nat :=
  (bezahltList l).length

/-- `offenCount` of the `stats` memo. -/
def offenCount (l : List Rechnung) : Nat :=
  (offenList l).length

/-! ### Category resolution and chart data (`DashboardOverview.tsx`) -/

/-- `getKategorie` from `DashboardOverview.tsx`:
`if (!k) return 'sonstiges'` (falsy: absent, and also the empty string);
`if (typeof k === 'object' && 'key' in k) return k.key`; otherwise
`String(k)`, which for a string value is the value itself. -/
def getKategorie (r : Rechnung) : String :=
  match r.fields.kategorie with
  | none => "sonstiges"
  | some (KategorieValue.pair key _) => key
  | some (KategorieValue.str s) => if s = "" then "sonstiges" else s

/-- Association-list lookup, the model of reading a property of a JavaScript
object whose keys are in insertion order. -/
def assocLookup {α : Type} (m : List (String × α)) (k : String) : Option α :=
  match m with
  | [] => none
  | (k₀, v₀) :: t => if k₀ = k then some v₀ else assocLookup t k

/-- `map[k] = (map[k] ?? 0) + v` on a JavaScript object: an existing key keeps
its position and its value is increased; a new key is appended at the end
(string-keyed objects enumerate in insertion order). -/
def addToMap (m : List (String × ℚ)) (k : String) (v : ℚ) : List (String × ℚ) :=
  match m with
  | [] => [(k, v)]
  | (k₀, v₀) :: t => if k₀ = k then (k₀, v₀ + v) :: t else (k₀, v₀) :: addToMap t k v

/-- The `rechnung.forEach` accumulation of the `chartData` memo, starting
from an arbitrary accumulator object. -/
def categoryMapFrom (m : List (String × ℚ)) (l : List Rechnung) :
    List (String × ℚ) :=
  l.foldl (fun acc r => addToMap acc (getKategorie r) (betragOrZero r)) m

/-- The category-totals object built by the `chartData` memo (before the
`Object.entries ... sort` postprocessing): from category key to summed
amount, keys in first-insertion order. -/
def categoryMap (l : List Rechnung) : List (String × ℚ) :=
  categoryMapFrom [] l

/-- The `KATEGORIE_LABELS` table of `DashboardOverview.tsx`. -/
def kategorieLabels : List (String × String) :=
  [("buero", "Büromaterial"), ("it_software", "IT & Software"),
   ("reise", "Reisekosten"), ("marketing", "Marketing"),
   ("miete", "Miete & Nebenkosten"), ("versicherung", "Versicherungen"),
   ("sonstiges", "Sonstiges")]

/-- One entry of the chart data: `{ key, name, value }`. -/
structure ChartEntry where
  key : String
  name : String
  value : ℚ
deriving DecidableEq

/-- The `.map(([key, value]) => ({ key, name: KATEGORIE_LABELS[key] ?? key,
value }))` step of the `chartData` memo. -/
def toChartEntry (p : String × ℚ) : ChartEntry :=
  { key := p.1, name := (assocLookup kategorieLabels p.1).getD p.1, value := p.2 }

/-- The chart entries in the order produced before sorting:
`Object.entries(map).map(...)`. -/
def chartEntriesPre (l : List Rechnung) : List ChartEntry :=
  (categoryMap l).map toChartEntry

/-- The order used by the comparator `(a, b) => b.value - a.value`:
`a` precedes `b` exactly when the comparator is non-positive, i.e. when
`b.value ≤ a.value` (descending by value). -/
def valueGE (a b : ChartEntry) : Prop :=
  b.value ≤ a.value

instance : DecidableRel valueGE :=
  fun a b => inferInstanceAs (Decidable (b.value ≤ a.value))

instance : IsTotal ChartEntry valueGE :=
  ⟨fun a b => le_total b.value a.value⟩

instance : IsTrans ChartEntry valueGE :=
  ⟨fun _ _ _ h₁ h₂ => le_trans h₂ h₁⟩

/-- The `chartData` memo: the chart entries sorted by descending value.
`Array.prototype.sort` is specified by ECMAScript to be stable, and with the
consistent comparator `(a, b) => b.value - a.value` its result is the unique
stable descending reordering, which insertion sort with respect to
`valueGE` computes. -/
def chartData (l : List Rechnung) : List ChartEntry :=
  (chartEntriesPre l).insertionSort valueGE

/-! ### Mutation handlers, as effect traces -/

/-- The externally visible effects a mutation handler performs, in order:
the CRUD call it issues, a local in-memory filter of the collection, or a
full refetch (`fetchAll` / `loadData`). -/
inductive Effect where
  | apiCreate
  | apiUpdate (id : String)
  | apiDelete (id : String)
  | localRemove (id : String)
  | refetch
deriving DecidableEq

/-- `handleCreate` of the table page (`RechnungPage`): create then reload. -/
def rechnungPageCreateTrace : List Effect :=
  [Effect.apiCreate, Effect.refetch]

/-- `handleUpdate` of the table page: update then reload. -/
def rechnungPageUpdateTrace (id : String) : List Effect :=
  [Effect.apiUpdate id, Effect.refetch]

/-- `handleDelete` of the table page: delete, then the local filter
`setRecords(prev => prev.filter(r => r.record_id !== deleteTarget.record_id))`
with no reload. -/
def rechnungPageDeleteTrace (id : String) : List Effect :=
  [Effect.apiDelete id, Effect.localRemove id]

/-- `handleDelete` of the dashboard page (`DashboardOverview`): delete, then
`fetchAll()` — a full refetch, with no local filter. -/
def dashboardDeleteTrace (id : String) : List Effect :=
  [Effect.apiDelete id, Effect.refetch]

/-- The dialog submit handler of the dashboard page: update (when editing)
or create, then `fetchAll()`. -/
def dashboardSubmitTrace (editing : Option String) : List Effect :=
  match editing with
  | some id => [Effect.apiUpdate id, Effect.refetch]
  | none => [Effect.apiCreate, Effect.refetch]

/-- The local collection update of the table page's `handleDelete`:
`prev.filter(r => r.record_id !== id)`. -/
def deleteLocal (records : List Rechnung) (id : String) : List Rechnung :=
  records.filter (fun r => r.record_id != id)

/-! ## Helper lemmas -/

theorem totalAmount_nil : totalAmount [] = 0 := rfl

theorem totalAmount_cons (r : Rechnung) (l : List Rechnung) :
    totalAmount (r :: l) = betragOrZero r + totalAmount l := by
  simp [totalAmount]

theorem bezahltList_cons_pos {r : Rechnung} (h : isBezahlt r = true)
    (l : List Rechnung) : bezahltList (r :: l) = r :: bezahltList l := by
  simp [bezahltList, List.filter_cons, h]

theorem bezahltList_cons_neg {r : Rechnung} (h : isBezahlt r = false)
    (l : List Rechnung) : bezahltList (r :: l) = bezahltList l := by
  simp [bezahltList, List.filter_cons, h]

theorem offenList_cons_pos {r : Rechnung} (h : isBezahlt r = false)
    (l : List Rechnung) : offenList (r :: l) = r :: offenList l := by
  simp [offenList, List.filter_cons, h]

theorem offenList_cons_neg {r : Rechnung} (h : isBezahlt r = true)
    (l : List Rechnung) : offenList (r :: l) = offenList l := by
  simp [offenList, List.filter_cons, h]

theorem filter_ne_eq_self {l : List Rechnung} {id : String}
    (h : ∀ r ∈ l, r.record_id ≠ id) :
    l.filter (fun r => r.record_id != id) = l := by
  apply List.filter_eq_self.mpr
  intro r hr
  simpa using h r hr

/-- Under unique identifiers, removing all records with a given identifier by
`filter` is the same as removing the first one with `eraseP`: at most one
record matches. -/
theorem deleteLocal_eq_eraseP (records : List Rechnung) (id : String)
    (hnd : (records.map Rechnung.record_id).Nodup) :
    deleteLocal records id = records.eraseP (fun r => r.record_id == id) := by
  induction records with
  | nil => rfl
  | cons r t ih =>
    simp only [List.map_cons, List.nodup_cons] at hnd
    by_cases hid : r.record_id = id
    · have hf : (r.record_id != id) = false := by simp [hid]
      have hp : (r.record_id == id) = true := by simp [hid]
      rw [deleteLocal, List.filter_cons, hf, List.eraseP_cons, hp]
      simp only [if_neg Bool.false_ne_true, cond_true]
      apply filter_ne_eq_self
      intro x hx hxid
      apply hnd.1
      have hmem : x.record_id ∈ t.map Rechnung.record_id :=
        List.mem_map_of_mem Rechnung.record_id hx
      rwa [hxid, ← hid] at hmem
    · have hf : (r.record_id != id) = true := by simp [hid]
      have hp : (r.record_id == id) = false := by simp [hid]
      rw [deleteLocal, List.filter_cons, hf, List.eraseP_cons, hp]
      simp only [if_pos rfl, cond_false]
      exact congrArg (r :: ·) (ih hnd.2)

/-- A two-record collection with distinct identifiers, used to instantiate
theorems whose statements assume unique identifiers. -/
def sampleRecords : List Rechnung :=
  [{ record_id := "a", createdat := "2024-01-01", updatedat := none,
     fields := { betrag := some 100, bezahlt := some true,
                 kategorie := some (KategorieValue.str "buero") } },
   { record_id := "b", createdat := "2024-01-02", updatedat := none,
     fields := { betrag := some 50,
                 kategorie := some (KategorieValue.str "reise") } }]

/-! ## Claims -/

/-- Claim C4: for every collection of records (including the empty one),
`totalAmount` equals `bezahltSum` plus `offenSum` exactly; a record with an
absent amount contributes 0 to each sum, `bezahltSum` ranges over records
whose paid flag is truthy and `offenSum` over the rest. -/
theorem claim_C4_total_eq_paid_plus_unpaid (l : List Rechnung) :
    totalAmount l = bezahltSum l + offenSum l := by
  induction l with
  | nil => simp [totalAmount, bezahltSum, offenSum, bezahltList, offenList]
  | cons r t ih =>
    cases hb : isBezahlt r with
    | true =>
      rw [totalAmount_cons, bezahltSum, bezahltList_cons_pos hb,
        totalAmount_cons, offenSum, offenList_cons_neg hb, ih]
      rw [bezahltSum, offenSum]
      ring
    | false =>
      rw [totalAmount_cons, bezahltSum, bezahltList_cons_neg hb,
        offenSum, offenList_cons_pos hb, totalAmount_cons, ih]
      rw [bezahltSum, offenSum]
      ring

/-- Claim C5: for every collection of N records (including N = 0),
`bezahltCount` plus `offenCount` equals N; moreover a record with no amount
field and an absent paid flag still counts toward `offenCount`. -/
theorem claim_C5_counts_partition (l : List Rechnung) :
    bezahltCount l + offenCount l = l.length ∧
    ∀ (i c : String) (u : Option String) (f : RechnungFields),
      offenCount
        ({ record_id := i, createdat := c, updatedat := u,
           fields := { f with betrag := none, bezahlt := none } } :: l) =
        offenCount l + 1 := by
  constructor
  · induction l with
    | nil => rfl
    | cons r t ih =>
      cases hb : isBezahlt r with
      | true =>
        rw [bezahltCount, bezahltList_cons_pos hb, offenCount,
          offenList_cons_neg hb]
        simp only [List.length_cons]
        rw [bezahltCount, offenCount] at ih
        omega
      | false =>
        rw [bezahltCount, bezahltList_cons_neg hb, offenCount,
          offenList_cons_pos hb]
        simp only [List.length_cons]
        rw [bezahltCount, offenCount] at ih
        omega
  · intro i c u f
    have hb : isBezahlt
        { record_id := i, createdat := c, updatedat := u,
          fields := { f with betrag := none, bezahlt := none } } = false := rfl
    rw [offenCount, offenList_cons_pos hb]
    rfl

/-- Claim C1, counterexample: the claim says every call of `fetchAll` sets the
loading flag before the `list()` request is issued. In the reachable state
after one successful load, calling `fetchAll` again leaves the loading flag
`false` at the moment the request goes out: `fetchAll` contains no
`setLoading(true)`. -/
theorem claim_C1_counterexample :
    (fetchAll initialHookState (Except.ok [])).loading = false ∧
    (fetchAllPre (fetchAll initialHookState (Except.ok []))).loading = false :=
  ⟨rfl, rfl⟩

/-- Claim C1, amended: for every call of `fetchAll`, the prior error is
cleared before the `list()` request is issued while the collection and the
loading flag are left unchanged at that point (the flag is not set by
`fetchAll`; it is `true` only from the initial state); on success the full
collection replaces the stored one, the error stays cleared and loading is
cleared; on failure the error is stored, the previously loaded collection is
preserved unchanged, and loading is cleared. -/
theorem claim_C1_fetchAll_contract (s : HookState) (data : List Rechnung)
    (e : String) :
    (fetchAllPre s).error = none ∧
    (fetchAllPre s).rechnung = s.rechnung ∧
    (fetchAllPre s).loading = s.loading ∧
    fetchAll s (Except.ok data) =
      { rechnung := data, loading := false, error := none } ∧
    fetchAll s (Except.error e) =
      { rechnung := s.rechnung, loading := false, error := some e } :=
  ⟨rfl, rfl, rfl, rfl, rfl⟩

/-- Claim C2, counterexample: the claim states that after a successful delete
the record is removed by a local filter without a full refetch. The dashboard
page's `handleDelete` does the opposite: it calls `fetchAll()` (a full
refetch) and performs no local filter. -/
theorem claim_C2_counterexample :
    Effect.refetch ∈ dashboardDeleteTrace "5f1a2b3c4d5e6f7a8b9c0d1e" ∧
    Effect.localRemove "5f1a2b3c4d5e6f7a8b9c0d1e" ∉
      dashboardDeleteTrace "5f1a2b3c4d5e6f7a8b9c0d1e" := by
  decide

/-- Claim C2, amended: in the table page (`RechnungPage`), after a successful
delete the record is removed by the local filter without a refetch, and with
unique identifiers the filtered collection equals the old one with exactly
the record of that identifier removed (`eraseP`); create and update there are
each followed by a full refetch. In the dashboard page, delete is instead
followed by a full refetch, like create and update. -/
theorem claim_C2_delete_semantics (records : List Rechnung) (id : String)
    (hnd : (records.map Rechnung.record_id).Nodup) :
    Effect.refetch ∉ rechnungPageDeleteTrace id ∧
    Effect.localRemove id ∈ rechnungPageDeleteTrace id ∧
    deleteLocal records id = records.eraseP (fun r => r.record_id == id) ∧
    Effect.refetch ∈ rechnungPageCreateTrace ∧
    Effect.refetch ∈ rechnungPageUpdateTrace id ∧
    Effect.refetch ∈ dashboardDeleteTrace id := by
  refine ⟨?_, ?_, deleteLocal_eq_eraseP records id hnd, ?_, ?_, ?_⟩ <;>
    simp [rechnungPageDeleteTrace, rechnungPageCreateTrace,
      rechnungPageUpdateTrace, dashboardDeleteTrace]

/-- Claim C2, witness: the amended delete semantics at a concrete two-record
collection with distinct identifiers. -/
theorem claim_C2_witness :
    Effect.refetch ∉ rechnungPageDeleteTrace "a" ∧
    Effect.localRemove "a" ∈ rechnungPageDeleteTrace "a" ∧
    deleteLocal sampleRecords "a" =
      sampleRecords.eraseP (fun r => r.record_id == "a") ∧
    Effect.refetch ∈ rechnungPageCreateTrace ∧
    Effect.refetch ∈ rechnungPageUpdateTrace "a" ∧
    Effect.refetch ∈ dashboardDeleteTrace "a" :=
  claim_C2_delete_semantics sampleRecords "a" (by decide)

/-! ### Category-map helper lemmas -/

/-- The sum of the values of a category-totals object. -/
def sumValues (m : List (String × ℚ)) : ℚ :=
  (m.map Prod.snd).sum

theorem sumValues_cons (p : String × ℚ) (t : List (String × ℚ)) :
    sumValues (p :: t) = p.2 + sumValues t := by
  simp [sumValues]

theorem sumValues_addToMap (m : List (String × ℚ)) (k : String) (v : ℚ) :
    sumValues (addToMap m k v) = sumValues m + v := by
  induction m with
  | nil => simp [addToMap, sumValues]
  | cons p t ih =>
    obtain ⟨k₀, v₀⟩ := p
    by_cases h : k₀ = k
    · rw [addToMap, if_pos h, sumValues_cons, sumValues_cons]
      ring
    · rw [addToMap, if_neg h, sumValues_cons, ih, sumValues_cons]
      ring

theorem sumValues_categoryMapFrom (l : List Rechnung) :
    ∀ m : List (String × ℚ),
      sumValues (categoryMapFrom m l) = sumValues m + totalAmount l := by
  induction l with
  | nil => intro m; simp [categoryMapFrom, totalAmount]
  | cons r t ih =>
    intro m
    have hstep : categoryMapFrom m (r :: t) =
        categoryMapFrom (addToMap m (getKategorie r) (betragOrZero r)) t := rfl
    rw [hstep, ih, sumValues_addToMap, totalAmount_cons]
    ring

theorem assocLookup_addToMap (m : List (String × ℚ)) (k : String) (v : ℚ)
    (k₁ : String) :
    assocLookup (addToMap m k v) k₁ =
      if k₁ = k then some ((assocLookup m k₁).getD 0 + v)
      else assocLookup m k₁ := by
  induction m with
  | nil =>
    by_cases h : k₁ = k
    · simp [addToMap, assocLookup, h]
    · have h' : ¬k = k₁ := fun hs => h hs.symm
      simp [addToMap, assocLookup, h, h']
  | cons p t ih =>
    obtain ⟨k₀, v₀⟩ := p
    by_cases h₀ : k₀ = k
    · by_cases h₁ : k₁ = k
      · simp [addToMap, assocLookup, h₀, h₁]
      · have hne : k₀ ≠ k₁ := fun hs => h₁ (hs ▸ h₀)
        have h₁' : ¬k = k₁ := fun hs => h₁ hs.symm
        simp [addToMap, assocLookup, h₀, h₁, hne, h₁']
    · by_cases h₂ : k₀ = k₁
      · have hne : ¬k₁ = k := fun hs => h₀ (h₂ ▸ hs)
        simp [addToMap, assocLookup, h₀, h₂, hne]
      · simp [addToMap, assocLookup, h₀, h₂, ih]

theorem assocLookup_categoryMapFrom (l : List Rechnung) :
    ∀ (m : List (String × ℚ)) (k : String),
      assocLookup (categoryMapFrom m l) k =
        if l.any (fun r => getKategorie r == k) then
          some ((assocLookup m k).getD 0 +
            totalAmount (l.filter (fun r => getKategorie r == k)))
        else assocLookup m k := by
  induction l with
  | nil => intro m k; simp [categoryMapFrom, totalAmount]
  | cons r t ih =>
    intro m k
    have hstep : categoryMapFrom m (r :: t) =
        categoryMapFrom (addToMap m (getKategorie r) (betragOrZero r)) t := rfl
    rw [hstep, ih, assocLookup_addToMap]
    by_cases hk : getKategorie r = k
    · subst hk
      by_cases hany :
          (t.any fun x => getKategorie x == getKategorie r) = true
      · simp [hany, List.filter_cons, totalAmount_cons, add_assoc]
      · have hnil :
            t.filter (fun x => getKategorie x == getKategorie r) = [] := by
          rw [List.filter_eq_nil_iff]
          intro x hx hbx
          exact hany (List.any_eq_true.mpr ⟨x, hx, by simpa using hbx⟩)
        simp [hany, List.filter_cons, hnil, totalAmount_cons, totalAmount_nil]
    · have hcond : ¬k = getKategorie r := fun hs => hk hs.symm
      have hbeq : (getKategorie r == k) = false := by simp [hk]
      simp [hcond, hbeq, List.filter_cons]

/-- The category-resolution rule as the amended specification words it: an
absent or empty-string category resolves to the fixed default "sonstiges", a
label/key pair resolves to its key, and any other literal string to itself.
Written from the amended claim's words, to be compared with `getKategorie`
from the source. -/
def kategorieResolvedSpec (k : Option KategorieValue) : String :=
  match k with
  | none => "sonstiges"
  | some (KategorieValue.pair key _) => key
  | some (KategorieValue.str s) => if s = "" then "sonstiges" else s

/-- A record whose category field is present but holds the empty string. -/
def emptyKategorieRechnung : Rechnung :=
  { record_id := "c", createdat := "2024-01-03", updatedat := none,
    fields := { kategorie := some (KategorieValue.str "") } }

/-- Claim C6: for every collection of records, the sum of all values in the
category-totals mapping equals `totalAmount` of the same collection, and the
same holds for the sorted chart-data sequence built from it. -/
theorem claim_C6_categoryTotals_sum (l : List Rechnung) :
    sumValues (categoryMap l) = totalAmount l ∧
    ((chartData l).map ChartEntry.value).sum = totalAmount l := by
  have h₁ : sumValues (categoryMap l) = totalAmount l := by
    rw [categoryMap, sumValues_categoryMapFrom]
    simp [sumValues]
  refine ⟨h₁, ?_⟩
  have hperm : List.Perm (chartData l) (chartEntriesPre l) :=
    List.perm_insertionSort valueGE (chartEntriesPre l)
  have hsum : ((chartData l).map ChartEntry.value).sum =
      ((chartEntriesPre l).map ChartEntry.value).sum :=
    (hperm.map ChartEntry.value).sum_eq
  rw [hsum, chartEntriesPre, List.map_map]
  exact h₁

/-- Claim C7, counterexample: the claim says a present category value that is
not a label/key pair resolves to the literal value itself. For the empty
string the code's falsy guard `if (!k)` fires first, and the record resolves
to "sonstiges" instead of the literal `""`. -/
theorem claim_C7_counterexample :
    emptyKategorieRechnung.fields.kategorie = some (KategorieValue.str "") ∧
    getKategorie emptyKategorieRechnung = "sonstiges" ∧
    getKategorie emptyKategorieRechnung ≠ "" :=
  ⟨rfl, rfl, by decide⟩

/-- Claim C7, amended: every record's category resolves to "sonstiges" when
the category field is absent or the empty string, to the object's key when
the value is a label/key pair, and to the literal string value otherwise; and
the category-totals mapping sends each resolved key to the sum of the amounts
of the records resolving to it (and contains no other keys). -/
theorem claim_C7_category_resolution (l : List Rechnung) :
    (∀ r : Rechnung, getKategorie r = kategorieResolvedSpec r.fields.kategorie) ∧
    ∀ k : String,
      assocLookup (categoryMap l) k =
        if l.any (fun r => getKategorie r == k) then
          some (totalAmount (l.filter (fun r => getKategorie r == k)))
        else none := by
  constructor
  · intro r
    rfl
  · intro k
    rw [categoryMap, assocLookup_categoryMapFrom]
    simp [assocLookup]

/-! ### Sort stability helper lemmas -/

theorem filter_value_orderedInsert (a : ChartEntry) (l : List ChartEntry)
    (v : ℚ) :
    (List.orderedInsert valueGE a l).filter (fun e => e.value == v) =
      if a.value = v then a :: l.filter (fun e => e.value == v)
      else l.filter (fun e => e.value == v) := by
  induction l with
  | nil =>
    by_cases h : a.value = v <;> simp [List.orderedInsert, h]
  | cons b t ih =>
    rw [List.orderedInsert]
    by_cases hab : valueGE a b
    · rw [if_pos hab]
      by_cases hav : a.value = v <;> simp [List.filter_cons, hav]
    · rw [if_neg hab]
      have hlt : a.value < b.value := lt_of_not_le hab
      by_cases hav : a.value = v
      · have hbv : b.value ≠ v := fun h => ne_of_gt hlt (h.trans hav.symm)
        simp [List.filter_cons, hav, hbv, ih]
      · simp [List.filter_cons, hav, ih]

theorem filter_value_insertionSort (l : List ChartEntry) (v : ℚ) :
    (l.insertionSort valueGE).filter (fun e => e.value == v) =
      l.filter (fun e => e.value == v) := by
  induction l with
  | nil => rfl
  | cons a t ih =>
    rw [List.insertionSort, filter_value_orderedInsert]
    by_cases hav : a.value = v <;> simp [List.filter_cons, hav, ih]

/-- Claim C8: for every collection of records, the chart-data sequence is
sorted by descending total amount, it is a permutation of the pre-sort entry
sequence, and entries with equal totals retain their relative order from
before the sort (for every total `v`, the subsequence of entries with that
total is unchanged) — the stability mandated for `Array.prototype.sort`. -/
theorem claim_C8_chartData_sorted_stable (l : List Rechnung) :
    List.Sorted valueGE (chartData l) ∧
    List.Perm (chartData l) (chartEntriesPre l) ∧
    ∀ v : ℚ, (chartData l).filter (fun e => e.value == v) =
      (chartEntriesPre l).filter (fun e => e.value == v) :=
  ⟨List.sorted_insertionSort valueGE (chartEntriesPre l),
   List.perm_insertionSort valueGE (chartEntriesPre l),
   fun v => filter_value_insertionSort (chartEntriesPre l) v⟩

/-- A concrete two-entry service response with distinct identifiers. -/
def sampleApiData : List (String × ApiRecordBody) :=
  [("a", { createdat := "2024-01-01", updatedat := none, fields := {} }),
   ("b", { createdat := "2024-01-02", updatedat := none,
           fields := { betrag := some 50 } })]

/-- Claim C9: `getRechnung` returns the flattening of the service's
id-to-body mapping in the mapping's native enumeration order, each entry
tagged with its identifier as `record_id` and carrying its field set; when
the mapping's keys are pairwise distinct (as for a mapping they are), the
returned `record_id` values are pairwise distinct. -/
theorem claim_C9_getRechnung_flatten (data : List (String × ApiRecordBody)) :
    (getRechnung data).map Rechnung.record_id = data.map Prod.fst ∧
    (getRechnung data).map Rechnung.fields = data.map (fun p => p.2.fields) ∧
    ((data.map Prod.fst).Nodup →
      ((getRechnung data).map Rechnung.record_id).Nodup) := by
  have hids : (getRechnung data).map Rechnung.record_id =
      data.map Prod.fst := by
    rw [getRechnung, List.map_map]
    rfl
  have hfields : (getRechnung data).map Rechnung.fields =
      data.map (fun p => p.2.fields) := by
    rw [getRechnung, List.map_map]
    rfl
  refine ⟨hids, hfields, fun h => ?_⟩
  rw [hids]
  exact h

/-- Claim C9, witness: the distinctness conclusion at a concrete two-entry
response with distinct keys. -/
theorem claim_C9_witness :
    ((getRechnung sampleApiData).map Rechnung.record_id).Nodup :=
  (claim_C9_getRechnung_flatten sampleApiData).2.2 (by decide)

/-! ### Identifier-extraction helper lemmas -/

theorem hexTailMatch_eq_none_of_short (cs : List Char) (h : cs.length < 24) :
    hexTailMatch cs = none := by
  induction cs with
  | nil => rfl
  | cons c t ih =>
    rw [hexTailMatch, if_neg]
    · exact ih (by rw [List.length_cons] at h; omega)
    · intro hcc
      rw [List.length_cons] at h
      rw [List.length_cons] at hcc
      exact absurd hcc.1 (by omega)

theorem hexTailMatch_eq (cs : List Char) :
    hexTailMatch cs =
      if 24 ≤ cs.length ∧ (cs.drop (cs.length - 24)).all isHexChar = true
      then some (cs.drop (cs.length - 24)) else none := by
  induction cs with
  | nil => simp [hexTailMatch]
  | cons c t ih =>
    rcases Nat.lt_trichotomy (t.length + 1) 24 with hlt | heq | hgt
    · have hne : ¬((c :: t).length = 24 ∧ (c :: t).all isHexChar = true) := by
        intro hcc
        rw [List.length_cons] at hcc
        exact absurd hcc.1 (by omega)
      rw [hexTailMatch, if_neg hne,
        hexTailMatch_eq_none_of_short t (by omega), if_neg]
      intro hcc
      rw [List.length_cons] at hcc
      exact absurd hcc.1 (by omega)
    · have h24 : (c :: t).length = 24 := by rw [List.length_cons]; omega
      have hdrop0 : (c :: t).drop ((c :: t).length - 24) = c :: t := by
        rw [h24, Nat.sub_self, List.drop_zero]
      by_cases hall : (c :: t).all isHexChar = true
      · rw [hexTailMatch, if_pos ⟨h24, hall⟩,
          if_pos ⟨le_of_eq h24.symm, by rw [hdrop0]; exact hall⟩, hdrop0]
      · rw [hexTailMatch, if_neg (fun hcc => hall hcc.2),
          hexTailMatch_eq_none_of_short t (by omega), if_neg]
        intro hcc
        rw [hdrop0] at hcc
        exact hall hcc.2
    · have hne : ¬((c :: t).length = 24 ∧ (c :: t).all isHexChar = true) := by
        intro hcc
        rw [List.length_cons] at hcc
        exact absurd hcc.1 (by omega)
      have h24 : 24 ≤ t.length := by omega
      have hstep : (c :: t).drop ((c :: t).length - 24) =
          t.drop (t.length - 24) := by
        rw [List.length_cons]
        have harith : t.length + 1 - 24 = (t.length - 24) + 1 := by omega
        rw [harith, List.drop_succ_cons]
      rw [hexTailMatch, if_neg hne, ih, hstep]
      by_cases hall : (t.drop (t.length - 24)).all isHexChar = true
      · rw [if_pos ⟨h24, hall⟩,
          if_pos ⟨by rw [List.length_cons]; omega, hall⟩]
      · rw [if_neg (fun hcc => hall hcc.2), if_neg (fun hcc => hall hcc.2)]

/-- Closed form of `extractRecordId` on a present string: the match succeeds
exactly when the final 24 characters exist and are all hexadecimal, and then
returns exactly those 24 characters. -/
theorem extractRecordId_some_eq (s : String) :
    extractRecordId (some s) =
      if 24 ≤ s.data.length ∧
          (s.data.drop (s.data.length - 24)).all isHexChar = true
      then some (String.mk (s.data.drop (s.data.length - 24))) else none := by
  by_cases hs : s = ""
  · subst hs
    decide
  · show (if s = "" then none else (hexTailMatch s.data).map String.mk) = _
    rw [if_neg hs, hexTailMatch_eq]
    by_cases hc : 24 ≤ s.data.length ∧
        (s.data.drop (s.data.length - 24)).all isHexChar = true
    · rw [if_pos hc, if_pos hc]
      rfl
    · rw [if_neg hc, if_neg hc]
      rfl

/-- The claim's phrase "ends in a 24-hex-char segment", read with
path-segment boundaries: the final 24 characters are hexadecimal and form the
whole trailing path segment, i.e. they are the whole string or are preceded
by a slash. Written from the claim's words, for comparison with the code's
behaviour. -/
def endsIn24HexSegment (cs : List Char) : Bool :=
  decide (24 ≤ cs.length) && (cs.drop (cs.length - 24)).all isHexChar &&
    (decide (cs.length = 24) || (cs.getD (cs.length - 25) 'x') == '/')

/-- A URL whose trailing path segment consists of 25 hexadecimal characters:
it has no trailing 24-hex-char segment. -/
def cexUrl : String := "/aaaaaaaaaaaaaaaaaaaaaaaaa"

/-- Claim C3, counterexample: the claim says `extractRecordId` returns null
for every URL with no trailing 24-hex-char segment. The URL `cexUrl` has no
such segment (its trailing segment has 25 hex characters), yet the code
returns the final 24 characters, because the regex match need not start at a
path-segment boundary. -/
theorem claim_C3_counterexample :
    endsIn24HexSegment cexUrl.data = false ∧
    extractRecordId (some cexUrl) = some "aaaaaaaaaaaaaaaaaaaaaaaa" := by
  decide

/-- Claim C3, amended: `extractRecordId` returns the final 24 characters of
the URL whenever those exist and are all hexadecimal — in particular, for
every URL ending in a 24-hex-char segment it returns that segment, with no
requirement that the match start at a path-segment boundary — and returns
null exactly when the input is absent, empty, shorter than 24 characters, or
its final 24 characters are not all hexadecimal. -/
theorem claim_C3_extractRecordId (s : String) (p seg : List Char) :
    (extractRecordId (some s) =
      if 24 ≤ s.data.length ∧
          (s.data.drop (s.data.length - 24)).all isHexChar = true
      then some (String.mk (s.data.drop (s.data.length - 24))) else none) ∧
    (seg.length = 24 → seg.all isHexChar = true →
      extractRecordId (some (String.mk (p ++ seg))) = some (String.mk seg)) ∧
    extractRecordId none = none := by
  refine ⟨extractRecordId_some_eq s, ?_, rfl⟩
  intro hlen hhex
  rw [extractRecordId_some_eq]
  have hl : (String.mk (p ++ seg)).data.length = p.length + 24 := by
    show (p ++ seg).length = p.length + 24
    rw [List.length_append, hlen]
  have hdrop : (String.mk (p ++ seg)).data.drop
      ((String.mk (p ++ seg)).data.length - 24) = seg := by
    show (p ++ seg).drop ((p ++ seg).length - 24) = seg
    rw [List.length_append, hlen]
    have harith : p.length + 24 - 24 = p.length := by omega
    rw [harith, List.drop_left]
  have hcond : 24 ≤ (String.mk (p ++ seg)).data.length ∧
      ((String.mk (p ++ seg)).data.drop
        ((String.mk (p ++ seg)).data.length - 24)).all isHexChar = true := by
    constructor
    · rw [hl]
      omega
    · rw [hdrop]
      exact hhex
  rw [if_pos hcond, hdrop]

/-- Claim C3, witness: the positive branch of the amended claim at the
concrete URL made of the prefix "x/" and a 24-hex-character identifier. -/
theorem claim_C3_witness :
    extractRecordId
        (some (String.mk ("x/".data ++ "5f1a2b3c4d5e6f7a8b9c0d1e".data))) =
      some (String.mk "5f1a2b3c4d5e6f7a8b9c0d1e".data) :=
  (claim_C3_extractRecordId "" "x/".data "5f1a2b3c4d5e6f7a8b9c0d1e".data).2.1
    (by decide) (by decide)

/-- A URL whose trailing run of hexadecimal characters has length 25, longer
than 24 (the character before the run is a slash). -/
def longHexUrl : String :=
  "https://my.living-apps.de/records/aaaaaaaaaaaaaaaaaaaaaaaaa"

/-- Claim C10: on a URL whose trailing hex run is longer than 24 characters,
`extractRecordId` returns the final 24 of them rather than null (the match is
not anchored at a path-segment boundary); it returns null for absent
(null/undefined, both modelled as `none`) and empty input; and it matches hex
characters case-insensitively (the same identifier is accepted in upper and
in lower case). -/
theorem claim_C10_extractRecordId_edge_cases :
    extractRecordId (some longHexUrl) = some "aaaaaaaaaaaaaaaaaaaaaaaa" ∧
    extractRecordId none = none ∧
    extractRecordId (some "") = none ∧
    extractRecordId (some "/records/5F1A2B3C4D5E6F7A8B9C0D1E") =
      some "5F1A2B3C4D5E6F7A8B9C0D1E" ∧
    extractRecordId (some "/records/5f1a2b3c4d5e6f7a8b9c0d1e") =
      some "5f1a2b3c4d5e6f7a8b9c0d1e" := by
  decide

end InvoiceDashboard
